import Mathlib

/-!
A verification development of the txRedis RESP protocol client
(txredis/protocol.py): the incremental reply decoder, the command
encoder and the FIFO request queue, embedded shallowly.

Modelling conventions:
* A Python byte string is a `List Char`, one `Char` per byte, and
  `str.decode` under the configured charset is modelled as the
  identity (`String.mk`); the protocol machinery is byte-transparent,
  so only this latin-1-style view of the charset is embedded.
* Python `int` is `Int`; no machine overflow arises.
* A Twisted deferred is identified by the tag of its queued request
  slot (a `Nat` handed out by `getResponse`); firing a deferred is
  recorded as an explicit `Delivery` event.
* `dataReceived` is a while loop; it is embedded as a step function
  `feedStep` iterated by `feedFuel` over a fuel argument, with
  `dataReceived` supplying fuel strictly above the loop variant
  `measureF`; the fuel is proved sufficient and irrelevant below.
-/

namespace TxRedis

/-- A decoded reply value as the Python code builds it: `None`, a text
string, an `int`, an `InvalidResponse` exception used as a value, or a
list of elements assembled from a multi-bulk reply. -/
inductive PyVal where
  | none : PyVal
  | str : String → PyVal
  | int : Int → PyVal
  | invalid : String → PyVal
  | list : List PyVal → PyVal

/-- Server-reported error replies, classified by `errorReceived`. -/
inductive RErr where
  | responseError : String → RErr
  | noScript : String → RErr
  | notBusy : String → RErr
deriving DecidableEq

/-- A failure handed to `errback`: a server error reply object, or the
connection-lost reason passed into `connectionLost`. -/
inductive Failure where
  | resp : RErr → Failure
  | connLost : Failure
deriving DecidableEq

/-- One observable firing of a queued deferred: `callback` resolves the
identified request slot with a reply value, `errback` rejects it. -/
inductive Delivery where
  | callback : Nat → PyVal → Delivery
  | errback : Nat → Failure → Delivery

/-- One multi-bulk stack frame: the remaining element count paired with
the elements collected so far (Python `[length-remaining, [replies]]`).
The transient `[-1, None]` null-array frame is popped by the very next
statement after its push, so it is modelled by completing with
`PyVal.none` directly and is never stored. -/
abbrev Frame := Int × List PyVal

/-- The per-connection state of `RedisBase`: the undecoded tail of the
byte stream, the pending bulk length, the multi-bulk frame stack (head
innermost), the FIFO request queue (head oldest) with the tag counter
for fresh slots, and the disconnect flag. -/
structure ProtoState where
  buffer : List Char
  bulkLength : Option Int
  stack : List Frame
  queue : List Nat
  disconnected : Bool
  nextId : Nat

/-- Whitespace stripped by Python `int()` around its argument. -/
def pyWs (c : Char) : Bool :=
  c = ' ' || c = '\t' || c = '\n' || c = '\r' || c = '\x0b' || c = '\x0c'

/-- Digit run with the underscore rule of Python `int()`: nonempty,
and single underscores may appear only between digits. The flag
records that a digit is required next (initially, and right after an
underscore). -/
def pyDigitsAux : Nat → Bool → List Char → Option Nat
  | acc, needDigit, [] => if needDigit then Option.none else Option.some acc
  | acc, needDigit, c :: cs =>
    if c.isDigit then pyDigitsAux (10 * acc + (c.toNat - 48)) false cs
    else if c = '_' then
      if needDigit then Option.none else pyDigitsAux acc true cs
    else Option.none

/-- Digit run of Python `int()`. -/
def pyDigits (l : List Char) : Option Nat :=
  pyDigitsAux 0 true l

/-- Python `int(text)`: optional surrounding whitespace, an optional
sign, then a digit run. `none` where the Python call raises
`ValueError`. ASCII digits and whitespace only: the non-ASCII decimal
digits Python would also accept are multi-byte in the wire charset and
so fall outside the byte-transparent model. -/
def parsePyInt (s : String) : Option Int :=
  let l := ((s.data.dropWhile pyWs).reverse.dropWhile pyWs).reverse
  match l with
  | '-' :: rest => (pyDigits rest).map (fun n => -(n : Int))
  | '+' :: rest => (pyDigits rest).map (fun n => (n : Int))
  | _ => (pyDigits l).map (fun n => (n : Int))

/-- The message of the `InvalidResponse` built for a malformed integer
field in `dataReceived` and `integerReceived`. -/
def invalidMsg (d : String) : String :=
  "Cannot convert data \x27" ++ d ++ "\x27 to integer"

/-- Error-line classification in `errorReceived`: an `ERR ` prefix
yields a generic `ResponseError` on the remainder, `NOSCRIPT ` and
`NOTBUSY ` their dedicated kinds, anything else a generic
`ResponseError` on the full text. -/
def classifyError (d : String) : RErr :=
  if d.data.take 4 = "ERR ".data then
    RErr.responseError (String.mk (d.data.drop 4))
  else if d.data.take 9 = "NOSCRIPT ".data then
    RErr.noScript (String.mk (d.data.drop 9))
  else if d.data.take 8 = "NOTBUSY ".data then
    RErr.notBusy (String.mk (d.data.drop 8))
  else RErr.responseError d

/-- `handleMultiBulkElement`: append the finished element to the
innermost open frame and decrement its remaining count; at zero the
frame is popped and its collected list flows one level up
(`multiBulkDataReceived`), cascading until an unfinished frame absorbs
it or, with the stack emptied, the oldest queued request is resolved
(`handleCompleteMultiBulkData` / `responseReceived`). The Python code
never calls this with an empty stack; that case is mapped to a no-op. -/
def handleMultiBulkElement : PyVal → List Frame → List Nat →
    List Frame × List Nat × List Delivery
  | _, [], q => ([], q, [])
  | el, (rem, elems) :: rest, q =>
    if rem - 1 = 0 then
      match rest with
      | [] =>
        match q with
        | d :: ds => ([], ds, [Delivery.callback d (PyVal.list (elems ++ [el]))])
        | [] => ([], [], [])
      | f :: fs => handleMultiBulkElement (PyVal.list (elems ++ [el])) (f :: fs) q
    else ((rem - 1, elems ++ [el]) :: rest, q, [])

/-- `responseReceived`: with an open multi-bulk frame the reply becomes
its next element; otherwise the oldest queued request, when present, is
resolved with it, and with no queued request the reply is dropped. -/
def responseReceived (reply : PyVal) (stack : List Frame) (q : List Nat) :
    List Frame × List Nat × List Delivery :=
  match stack with
  | [] =>
    match q with
    | d :: ds => ([], ds, [Delivery.callback d reply])
    | [] => ([], [], [])
  | f :: fs => handleMultiBulkElement reply (f :: fs) q

/-- `integerReceived`: parse the line text as an `int`, turning a
`ValueError` into an `InvalidResponse` value, then route it through the
multi-bulk stack or, with no open frame, `responseReceived`. -/
def integerReceived (d : String) (stack : List Frame) (q : List Nat) :
    List Frame × List Nat × List Delivery :=
  let reply := match parsePyInt d with
    | Option.some n => PyVal.int n
    | Option.none => PyVal.invalid (invalidMsg d)
  match stack with
  | f :: fs => handleMultiBulkElement reply (f :: fs) q
  | [] => responseReceived reply [] q

/-- `singleLineReceived`: the literal text of the line, with the text
`none` normalised to a null reply. -/
def singleLineReceived (d : String) (stack : List Frame) (q : List Nat) :
    List Frame × List Nat × List Delivery :=
  responseReceived (if d = "none" then PyVal.none else PyVal.str d) stack q

/-- Outcome of `errorReceived`: either the oldest queued request is
rejected, or, with an empty queue, the error object is raised out of
the surrounding `dataReceived` call. -/
inductive ErrResult where
  | popped : List Nat → List Delivery → ErrResult
  | raised : RErr → ErrResult

/-- `errorReceived`: classify the error line and reject the oldest
queued request with it; the multi-bulk stack is not consulted. With no
queued request the exception is raised. -/
def errorReceived (d : String) (q : List Nat) : ErrResult :=
  let reply := classifyError d
  match q with
  | x :: xs => ErrResult.popped xs [Delivery.errback x (Failure.resp reply)]
  | [] => ErrResult.raised reply

/-- First split of the buffer at the two-byte line terminator, as the
Python `CRLF in buffer` test followed by `buffer.split(CRLF, 1)`:
`none` when no terminator is present. -/
def splitCRLF : List Char → Option (List Char × List Char)
  | [] => Option.none
  | [_] => Option.none
  | c :: c2 :: rest =>
    if c = '\r' ∧ c2 = '\n' then Option.some ([], rest)
    else
      match splitCRLF (c2 :: rest) with
      | Option.some (a, b) => Option.some (c :: a, b)
      | Option.none => Option.none

/-- Clamp a Python slice index (possibly negative, meaning
end-relative) to a position in a list of length `len`. -/
def pyIdx (len : Nat) (k : Int) : Nat :=
  if 0 ≤ k then k.toNat else ((len : Int) + k).toNat

/-- Python `l[:k]`. -/
def pyTake (l : List Char) (k : Int) : List Char :=
  l.take (pyIdx l.length k)

/-- Python `l[k:]`. -/
def pyDrop (l : List Char) (k : Int) : List Char :=
  l.drop (pyIdx l.length k)

/-- Why one `dataReceived` call stopped: the buffer drained; more bytes
are needed (a partial bulk payload or an unterminated line); one of the
three mid-buffer `return` statements ran (malformed `$` or `*` length
field, or a `*-1` null-array line); `errorReceived` raised; or the fuel
of the embedding ran out (unreachable from `dataReceived`). -/
inductive Stop where
  | drained : Stop
  | needMore : Stop
  | earlyReturn : Stop
  | raised : RErr → Stop
  | outOfFuel : Stop

/-- Result of one `dataReceived` call: the state after it, the deferred
firings it produced in order, why it stopped, and whether any bulk
payload was consumed under a negative declared length (a Python
negative-slice corner that the incrementality analysis must exclude). -/
structure FeedResult where
  state : ProtoState
  out : List Delivery
  stop : Stop
  negBulk : Bool

/-- Outcome of a single pass over the body of `while self._buffer:`:
keep looping, or return from `dataReceived`. -/
inductive StepRes where
  | cont : ProtoState → List Delivery → Bool → StepRes
  | halt : ProtoState → List Delivery → Stop → StepRes

/-- The bulk-payload arm of the loop: with fewer than
`declared length + 2` bytes buffered, wait; otherwise slice off the
payload and its terminator exactly as the Python slices do (so a
negative declared length reads relative to the end of the buffer),
reset the bulk state and complete the decoded text
(`bulkDataReceived`). -/
def bulkStep (st : ProtoState) (l : Int) : StepRes :=
  if (st.buffer.length : Int) < l + 2 then StepRes.halt st [] Stop.needMore
  else
    StepRes.cont
      { st with
          buffer := pyDrop st.buffer (l + 2)
          bulkLength := Option.none
          stack := (responseReceived (PyVal.str (String.mk (pyTake st.buffer l))) st.stack st.queue).1
          queue := (responseReceived (PyVal.str (String.mk (pyTake st.buffer l))) st.stack st.queue).2.1 }
      (responseReceived (PyVal.str (String.mk (pyTake st.buffer l))) st.stack st.queue).2.2
      (decide (l < 0))

def contRR (st : ProtoState) (rest : List Char) (bl : Option Int)
    (r : List Frame × List Nat × List Delivery) : StepRes :=
  StepRes.cont { st with buffer := rest, bulkLength := bl, stack := r.1, queue := r.2.1 } r.2.2 false

def haltRR (st : ProtoState) (rest : List Char)
    (r : List Frame × List Nat × List Delivery) : StepRes :=
  StepRes.halt { st with buffer := rest, stack := r.1, queue := r.2.1 } r.2.2 Stop.earlyReturn

/-- The line-dispatch arm of the loop, given the line split off the
buffer: skip empty lines, then dispatch on the type byte exactly as
`dataReceived` does, including the three mid-buffer `return`
statements and the raise path of `errorReceived`. Unknown type bytes
fall through every branch and are ignored. `contRR` and `haltRR` above
abbreviate continuing, or returning, after a completion-routing call. -/
def lineStep (st : ProtoState) (line rest : List Char) : StepRes :=
  match line with
  | [] => StepRes.cont { st with buffer := rest } [] false
  | c :: body =>
    if c = '-' then
      match errorReceived (String.mk body) st.queue with
      | ErrResult.raised e => StepRes.halt { st with buffer := rest } [] (Stop.raised e)
      | ErrResult.popped q ds => StepRes.cont { st with buffer := rest, queue := q } ds false
    else if c = ':' then
      contRR st rest st.bulkLength (integerReceived (String.mk body) st.stack st.queue)
    else if c = '+' then
      contRR st rest st.bulkLength (singleLineReceived (String.mk body) st.stack st.queue)
    else if c = '$' then
      match parsePyInt (String.mk body) with
      | Option.none =>
        haltRR st rest
          (responseReceived (PyVal.invalid (invalidMsg (String.mk body))) st.stack st.queue)
      | Option.some l =>
        if l = -1 then
          contRR st rest Option.none (responseReceived PyVal.none st.stack st.queue)
        else StepRes.cont { st with buffer := rest, bulkLength := Option.some l } [] false
    else if c = '*' then
      match parsePyInt (String.mk body) with
      | Option.none =>
        haltRR st rest
          (responseReceived (PyVal.invalid (invalidMsg (String.mk body))) st.stack st.queue)
      | Option.some n =>
        if n = -1 then
          haltRR st rest (responseReceived PyVal.none st.stack st.queue)
        else if n = 0 then
          contRR st rest st.bulkLength (responseReceived (PyVal.list []) st.stack st.queue)
        else
          StepRes.cont { st with buffer := rest, stack := (n, []) :: st.stack } [] false
    else StepRes.cont { st with buffer := rest } [] false

/-- One pass of the `while self._buffer:` body: an empty buffer leaves
the loop; a pending bulk length takes the bulk arm; otherwise a full
terminated line is required, and split off for dispatch. -/
def feedStep (st : ProtoState) : StepRes :=
  match st.buffer with
  | [] => StepRes.halt st [] Stop.drained
  | _ :: _ =>
    match st.bulkLength with
    | Option.some l => bulkStep st l
    | Option.none =>
      match splitCRLF st.buffer with
      | Option.none => StepRes.halt st [] Stop.needMore
      | Option.some (line, rest) => lineStep st line rest

/-- The loop of `dataReceived`, iterated on fuel. -/
def feedFuel : Nat → ProtoState → FeedResult
  | 0, st => FeedResult.mk st [] Stop.outOfFuel false
  | Nat.succ f, st =>
    match feedStep st with
    | StepRes.halt st2 ds s => FeedResult.mk st2 ds s false
    | StepRes.cont st2 ds neg =>
      let r := feedFuel f st2
      FeedResult.mk r.state (ds ++ r.out) r.stop (neg || r.negBulk)

/-- Loop variant of `dataReceived`: strictly decreases on every `cont`
step of `feedStep`. -/
def measureF (st : ProtoState) : Nat :=
  2 * st.buffer.length + (if st.bulkLength.isSome then 1 else 0)

/-- `dataReceived`: append the chunk to the retained buffer and run the
decode loop to its return, with fuel strictly above the variant. The
`resetTimeout` call is inactivity-timer bookkeeping with no effect on
decoding and is not modelled. -/
def dataReceived (st : ProtoState) (data : List Char) : FeedResult :=
  feedFuel (2 * (st.buffer.length + data.length) + 2)
    { st with buffer := st.buffer ++ data }

/-- Result of `getResponse`: a fresh deferred identified by its slot
tag, or an already-failed deferred once disconnected. -/
inductive GetResult where
  | deferred : Nat → GetResult
  | failedNotConnected : GetResult
deriving DecidableEq

/-- `getResponse`: after a disconnect, an immediately failed deferred
and no queueing; otherwise a fresh deferred appended at the tail of the
request queue. -/
def getResponse (st : ProtoState) : ProtoState × GetResult :=
  if st.disconnected then (st, GetResult.failedNotConnected)
  else
    ({ st with queue := st.queue ++ [st.nextId], nextId := st.nextId + 1 },
      GetResult.deferred st.nextId)

/-- `failRequests`: errback every queued request, oldest first. -/
def failRequests (q : List Nat) (e : Failure) : List Delivery :=
  q.map (fun d => Delivery.errback d e)

/-- `connectionLost`: mark the connection closed and fail every queued
request with the connection-lost reason. -/
def connectionLost (st : ProtoState) : ProtoState × List Delivery :=
  ({ st with disconnected := true, queue := [] },
    failRequests st.queue Failure.connLost)

/-- An argument as accepted by `encode`: a literal `Token`, an already
encoded byte string, an `int`, or text. Floats and arbitrary objects,
which Python renders through `repr` and `str`, are outside the
embedding. -/
inductive PyArg where
  | token : List Char → PyArg
  | bytes : List Char → PyArg
  | int : Int → PyArg
  | str : List Char → PyArg

/-- `encode`: Tokens and byte strings pass through unchanged, ints
render as decimal text, text encodes under the connection charset (the
identity in the byte-transparent model). -/
def encode : PyArg → List Char
  | PyArg.token s => s
  | PyArg.bytes b => b
  | PyArg.int n => (toString n).data
  | PyArg.str s => s

/-- Python `command.split(' ')` on the byte-character model: split at
every single space, keeping empty pieces. -/
def splitSpace : List Char → List (List Char)
  | [] => [[]]
  | c :: rest =>
    match splitSpace rest with
    | g :: gs => if c = ' ' then [] :: g :: gs else (c :: g) :: gs
    | [] => [[c]]

/-- The wire atom `SYM_STAR`. -/
def SYM_STAR : List Char := ['*']

/-- The wire atom `SYM_DOLLAR`. -/
def SYM_DOLLAR : List Char := ['$']

/-- The wire atom `SYM_CRLF`. -/
def SYM_CRLF : List Char := ['\r', '\n']

/-- The per-argument chunking loop of `_pack`: accumulate small
arguments into `buff`, but once the accumulator or the next argument
crosses 6000 bytes emit the accumulator with the length header, then
the argument, as separate output chunks, restarting the accumulator
with the trailing terminator. -/
def packLoop : List Char → List (List Char) → List (List Char) → List (List Char)
  | buff, output, [] => output ++ [buff]
  | buff, output, arg :: rest =>
    if 6000 < buff.length || 6000 < arg.length then
      packLoop SYM_CRLF
        (output ++ [buff ++ SYM_DOLLAR ++ (toString arg.length).data ++ SYM_CRLF, arg])
        rest
    else
      packLoop (buff ++ SYM_DOLLAR ++ (toString arg.length).data ++ SYM_CRLF ++ arg ++ SYM_CRLF)
        output rest

/-- The argument-list normalisation of `_pack`: a command name with
embedded spaces splits into several literal tokens, otherwise it is one
literal token, in either case prepended to the remaining arguments. -/
def packArgs (cmd : List Char) (args : List PyArg) : List PyArg :=
  if ' ' ∈ cmd then (splitSpace cmd).map PyArg.token ++ args
  else PyArg.token cmd :: args

/-- `_pack`: the multi-bulk request header followed by the chunked
length-prefixed encoded arguments. -/
def pack (cmd : List Char) (args : List PyArg) : List (List Char) :=
  let args2 := packArgs cmd args
  packLoop (SYM_STAR ++ (toString args2.length).data ++ SYM_CRLF) [] (args2.map encode)

/-- `send`: `_send` writes the packed chunks to the transport (returned
here as the middle component) and `getResponse` builds the deferred
handed back to the caller. -/
def send (st : ProtoState) (cmd : List Char) (args : List PyArg) :
    ProtoState × List (List Char) × GetResult :=
  let parts := pack cmd args
  let r := getResponse st
  (r.1, parts, r.2)

/-- Modelled from the spec wording for the encoder output shape: the
canonical single-buffer form, a `*<argcount>` line followed by a
`$<byteLength>` line and the bytes plus terminator for each argument. -/
def canonicalWire (args : List (List Char)) : List Char :=
  SYM_STAR ++ (toString args.length).data ++ SYM_CRLF ++
    (args.map (fun a => SYM_DOLLAR ++ (toString a.length).data ++ SYM_CRLF ++ a ++ SYM_CRLF)).flatten

/-- Sequential composition of two `dataReceived` results: the second
call continues from the state the first left behind, deliveries
concatenate, and the second call decides how the combined processing
stopped. -/
def mergeFR (r1 r2 : FeedResult) : FeedResult :=
  FeedResult.mk r2.state (r1.out ++ r2.out) r2.stop (r1.negBulk || r2.negBulk)

/-- Prefix extra deliveries onto a `dataReceived` result. -/
def withOut (ds : List Delivery) (r : FeedResult) : FeedResult :=
  FeedResult.mk r.state (ds ++ r.out) r.stop r.negBulk

/-- Feed a list of chunks through consecutive `dataReceived` calls. -/
def feedChunks (st : ProtoState) : List (List Char) → FeedResult
  | [] => FeedResult.mk st [] Stop.drained false
  | [c] => dataReceived st c
  | c :: c2 :: cs => mergeFR (dataReceived st c) (feedChunks (dataReceived st c).state (c2 :: cs))

/-- A stop caused only by exhausting the available bytes: the buffer
drained, or a partial value needs more data. The mid-buffer `return`
statements and the raise path are not clean. -/
def cleanStop : Stop → Bool
  | Stop.drained => true
  | Stop.needMore => true
  | _ => false

/-- Every proper prefix of the chunk sequence is fed without hitting a
mid-buffer `return`, a raise, or a negative-length bulk slice. -/
def cleanPrefixes (st : ProtoState) : List (List Char) → Bool
  | [] => true
  | [_] => true
  | c :: c2 :: cs =>
    (cleanStop (dataReceived st c).stop && !(dataReceived st c).negBulk) &&
      cleanPrefixes (dataReceived st c).state (c2 :: cs)

/-- The slot tags named by a delivery sequence, in order. -/
def outIds (ds : List Delivery) : List Nat :=
  ds.map (fun d => match d with
    | Delivery.callback x _ => x
    | Delivery.errback x _ => x)

/-- The state of a freshly constructed `RedisBase`. -/
def initialState : ProtoState :=
  ProtoState.mk [] Option.none [] [] false 0

/-- Queue bookkeeping of a processing step: the deliveries name, in
order, exactly the oldest slots of the queue, and the new queue is what
remains after popping them from the front. -/
def popsFront (q q2 : List Nat) (ds : List Delivery) : Prop :=
  q2 = q.drop ds.length ∧ outIds ds = q.take ds.length

/-- The queue and deliveries of either kind of step outcome. -/
def stepQueueDs : StepRes → List Nat × List Delivery
  | StepRes.cont st2 ds _ => (st2.queue, ds)
  | StepRes.halt st2 ds _ => (st2.queue, ds)

/-- `dataReceived` on an empty chunk: process whatever the buffer
already retains. Twisted delivers only nonempty chunks, so this is the
mathematical device used to talk about the retained buffer. -/
def runBuffer (st : ProtoState) : FeedResult :=
  dataReceived st []

theorem splitCRLF_eq_append : ∀ {l a r : List Char},
    splitCRLF l = Option.some (a, r) → l = a ++ '\r' :: '\n' :: r := by
  intro l
  induction l with
  | nil => intro a r h; simp [splitCRLF] at h
  | cons c rest ih =>
    intro a r h
    cases rest with
    | nil => simp [splitCRLF] at h
    | cons c2 rest2 =>
      rw [splitCRLF] at h
      split at h
      · rename_i hc
        obtain ⟨hc1, hc2⟩ := hc
        simp only [Option.some.injEq, Prod.mk.injEq] at h
        obtain ⟨ha, hr⟩ := h
        subst ha; subst hr; subst hc1; subst hc2
        rfl
      · split at h
        · rename_i a2 b2 hm
          simp only [Option.some.injEq, Prod.mk.injEq] at h
          obtain ⟨ha, hr⟩ := h
          subst ha; subst hr
          have := ih hm
          rw [List.cons_append, ← this]
        · exact absurd h (by simp)

theorem splitCRLF_length {l a r : List Char} (h : splitCRLF l = Option.some (a, r)) :
    l.length = a.length + 2 + r.length := by
  have := splitCRLF_eq_append h
  subst this
  simp
  omega

theorem splitCRLF_append {b : List Char} : ∀ {l a r : List Char},
    splitCRLF l = Option.some (a, r) →
    splitCRLF (l ++ b) = Option.some (a, r ++ b) := by
  intro l
  induction l with
  | nil => intro a r h; simp [splitCRLF] at h
  | cons c rest ih =>
    intro a r h
    cases rest with
    | nil => simp [splitCRLF] at h
    | cons c2 rest2 =>
      rw [splitCRLF] at h
      rw [List.cons_append, List.cons_append, splitCRLF]
      split at h
      · rename_i hc
        simp only [Option.some.injEq, Prod.mk.injEq] at h
        obtain ⟨ha, hr⟩ := h
        subst ha; subst hr
        rw [if_pos hc]
      · rename_i hc
        rw [if_neg hc]
        split at h
        · rename_i a2 b2 hm
          simp only [Option.some.injEq, Prod.mk.injEq] at h
          obtain ⟨ha, hr⟩ := h
          subst ha; subst hr
          have hm2 := ih hm
          rw [List.cons_append] at hm2
          rw [hm2]
        · exact absurd h (by simp)

theorem splitCRLF_no_cr : ∀ (a t : List Char), '\r' ∉ a →
    splitCRLF (a ++ '\r' :: '\n' :: t) = Option.some (a, t) := by
  intro a t
  induction a with
  | nil => intro _; rw [List.nil_append, splitCRLF, if_pos ⟨rfl, rfl⟩]
  | cons c a2 ih =>
    intro h
    have hc : ¬ (c = '\r') := by
      intro hh; exact h (by rw [hh]; exact List.mem_cons_self _ _)
    cases a2 with
    | nil =>
      rw [List.cons_append, List.nil_append, splitCRLF]
      rw [if_neg (by rintro ⟨h1, _⟩; exact hc h1)]
      rw [splitCRLF, if_pos ⟨rfl, rfl⟩]
    | cons c2 a3 =>
      have h2 : '\r' ∉ c2 :: a3 := by
        intro hh; exact h (List.mem_cons_of_mem _ hh)
      have ih2 := ih h2
      simp only [List.cons_append] at ih2 ⊢
      rw [splitCRLF, if_neg (by rintro ⟨h1, _⟩; exact hc h1), ih2]

theorem lineStep_halt_not_clean {st st2 : ProtoState} {line rest : List Char}
    {ds : List Delivery} {s : Stop}
    (h : lineStep st line rest = StepRes.halt st2 ds s) : cleanStop s = false := by
  unfold lineStep contRR haltRR at h
  repeat' split at h
  all_goals
    first
      | exact StepRes.noConfusion h
      | (injection h with h1 h2 h3; subst h3; rfl)

theorem lineStep_halt_not_fuelOut {st st2 : ProtoState} {line rest : List Char}
    {ds : List Delivery} {s : Stop}
    (h : lineStep st line rest = StepRes.halt st2 ds s) : s ≠ Stop.outOfFuel := by
  unfold lineStep contRR haltRR at h
  repeat' split at h
  all_goals
    first
      | exact StepRes.noConfusion h
      | (injection h with h1 h2 h3; subst h3; intro hh; exact Stop.noConfusion hh)

theorem lineStep_cont_buffer {st st2 : ProtoState} {line rest : List Char}
    {ds : List Delivery} {neg : Bool}
    (h : lineStep st line rest = StepRes.cont st2 ds neg) :
    st2.buffer = rest ∧ neg = false := by
  unfold lineStep contRR haltRR at h
  repeat' split at h
  all_goals
    first
      | exact StepRes.noConfusion h
      | (injection h with h1 h2 h3; subst h1; subst h3; exact ⟨rfl, rfl⟩)

theorem feedStep_halt_clean {st st2 : ProtoState} {ds : List Delivery} {s : Stop}
    (h : feedStep st = StepRes.halt st2 ds s) (hs : cleanStop s = true) :
    st2 = st ∧ ds = [] := by
  unfold feedStep at h
  split at h
  · injection h with h1 h2 h3; exact ⟨h1.symm, h2.symm⟩
  · split at h
    · unfold bulkStep at h
      split at h
      · injection h with h1 h2 h3; exact ⟨h1.symm, h2.symm⟩
      · exact StepRes.noConfusion h
    · split at h
      · injection h with h1 h2 h3; exact ⟨h1.symm, h2.symm⟩
      · rw [lineStep_halt_not_clean h] at hs; exact absurd hs (by simp)

theorem feedStep_halt_not_fuelOut {st st2 : ProtoState} {ds : List Delivery} {s : Stop}
    (h : feedStep st = StepRes.halt st2 ds s) : s ≠ Stop.outOfFuel := by
  unfold feedStep at h
  split at h
  · injection h with h1 h2 h3; subst h3; intro hh; exact Stop.noConfusion hh
  · split at h
    · unfold bulkStep at h
      split at h
      · injection h with h1 h2 h3; subst h3; intro hh; exact Stop.noConfusion hh
      · exact StepRes.noConfusion h
    · split at h
      · injection h with h1 h2 h3; subst h3; intro hh; exact Stop.noConfusion hh
      · exact lineStep_halt_not_fuelOut h

theorem step_measure {st st2 : ProtoState} {ds : List Delivery} {neg : Bool}
    (h : feedStep st = StepRes.cont st2 ds neg) : measureF st2 < measureF st := by
  obtain ⟨u, bl, stk, q, disc, nid⟩ := st
  cases u with
  | nil => simp [feedStep] at h
  | cons c r0 =>
    cases bl with
    | some l =>
      simp only [feedStep] at h
      unfold bulkStep at h
      split at h
      · exact StepRes.noConfusion h
      · injection h with h1 h2 h3
        subst h1
        simp only [measureF, pyDrop, List.length_drop]
        simp
        omega
    | none =>
      simp only [feedStep] at h
      cases hsp : splitCRLF (c :: r0) with
      | none => simp only [hsp] at h; exact StepRes.noConfusion h
      | some p =>
        obtain ⟨line, rest⟩ := p
        simp only [hsp] at h
        have hb := (lineStep_cont_buffer h).1
        have hl := splitCRLF_length hsp
        have h2 : (if st2.bulkLength.isSome then 1 else 0) ≤ 1 := by split <;> omega
        simp only [measureF, hb]
        simp only [List.length_cons] at hl
        simp
        omega

theorem pyTake_append {u b : List Char} {l : Int} (h0 : 0 ≤ l)
    (h2 : l + 2 ≤ (u.length : Int)) : pyTake (u ++ b) l = pyTake u l := by
  unfold pyTake pyIdx
  rw [if_pos h0, if_pos h0]
  apply List.take_append_of_le_length
  omega

theorem pyDrop_append {u b : List Char} {l : Int} (h0 : 0 ≤ l)
    (h2 : l + 2 ≤ (u.length : Int)) : pyDrop (u ++ b) (l + 2) = pyDrop u (l + 2) ++ b := by
  unfold pyDrop pyIdx
  rw [if_pos (by omega), if_pos (by omega)]
  apply List.drop_append_of_le_length
  omega

theorem lineStep_append {st st2 : ProtoState} {line rest : List Char} {ds : List Delivery}
    (b u2 : List Char) (h : lineStep st line rest = StepRes.cont st2 ds false) :
    lineStep { st with buffer := u2 } line (rest ++ b) =
      StepRes.cont { st2 with buffer := st2.buffer ++ b } ds false := by
  obtain ⟨u, bl, stk, q, dc, nd⟩ := st
  unfold lineStep contRR haltRR at h ⊢
  cases line with
  | nil =>
    injection h with h1 h2 h3
    subst h1; subst h2
    rfl
  | cons c body =>
    repeat' split at h
    all_goals
      first
        | exact StepRes.noConfusion h
        | (injection h with h1 h2 h3; subst h1; subst h2; simp [*])

theorem step_append {st st2 : ProtoState} {ds : List Delivery} (b : List Char)
    (h : feedStep st = StepRes.cont st2 ds false) :
    feedStep { st with buffer := st.buffer ++ b } =
      StepRes.cont { st2 with buffer := st2.buffer ++ b } ds false := by
  obtain ⟨u, bl, stk, q, dc, nd⟩ := st
  cases u with
  | nil => simp [feedStep] at h
  | cons c r0 =>
    cases bl with
    | some l =>
      simp only [feedStep, List.cons_append] at h ⊢
      unfold bulkStep at h ⊢
      split at h
      · exact StepRes.noConfusion h
      · rename_i hguard
        injection h with h1 h2 h3
        have hl0 : 0 ≤ l := by
          have h4 : ¬ (l < 0) := by
            intro hh
            rw [decide_eq_true hh] at h3
            exact Bool.noConfusion h3
          omega
        simp only [List.length_cons] at hguard
        rw [if_neg (by simp only [List.length_append, List.length_cons]; push_cast; omega)]
        have ht : pyTake ((c :: r0) ++ b) l = pyTake (c :: r0) l :=
          pyTake_append hl0 (by simp only [List.length_cons]; push_cast at hguard ⊢; omega)
        have hd : pyDrop ((c :: r0) ++ b) (l + 2) = pyDrop (c :: r0) (l + 2) ++ b :=
          pyDrop_append hl0 (by simp only [List.length_cons]; push_cast at hguard ⊢; omega)
        simp only [List.cons_append] at ht hd
        rw [ht, hd]
        subst h1; subst h2
        have h5 : decide (l < 0) = false := by
          rw [decide_eq_false (by omega)]
        rw [h5]
    | none =>
      simp only [feedStep, List.cons_append] at h ⊢
      cases hsp : splitCRLF (c :: r0) with
      | none => simp only [hsp] at h; exact StepRes.noConfusion h
      | some p =>
        obtain ⟨line, rest⟩ := p
        simp only [hsp] at h
        have hsp2 := splitCRLF_append (b := b) hsp
        simp only [List.cons_append] at hsp2
        rw [hsp2]
        exact lineStep_append b _ h

theorem feedFuel_irrel : ∀ (f g : Nat) (st : ProtoState), measureF st < f → measureF st < g →
    feedFuel f st = feedFuel g st := by
  intro f
  induction f with
  | zero => intro g st hf _; exact absurd hf (by omega)
  | succ f ih =>
    intro g st hf hg
    cases g with
    | zero => exact absurd hg (by omega)
    | succ g =>
      cases hstep : feedStep st with
      | halt st2 ds s => simp only [feedFuel, hstep]
      | cont st2 ds neg =>
        have hm := step_measure hstep
        simp only [feedFuel, hstep]
        rw [ih g st2 (by omega) (by omega)]

theorem measureF_lt_can (st : ProtoState) : measureF st < 2 * st.buffer.length + 2 := by
  unfold measureF
  split <;> omega

theorem runBuffer_eq (st : ProtoState) : runBuffer st = feedFuel (2 * st.buffer.length + 2) st := by
  obtain ⟨u, bl, stk, q, dc, nd⟩ := st
  unfold runBuffer dataReceived
  simp

theorem dataReceived_eq_run (st : ProtoState) (data : List Char) :
    dataReceived st data = runBuffer { st with buffer := st.buffer ++ data } := by
  rw [runBuffer_eq]
  unfold dataReceived
  congr 1
  simp [List.length_append]

theorem feedFuel_succ (f : Nat) (st : ProtoState) :
    feedFuel (Nat.succ f) st =
      match feedStep st with
      | StepRes.halt st2 ds s => FeedResult.mk st2 ds s false
      | StepRes.cont st2 ds neg =>
        FeedResult.mk (feedFuel f st2).state (ds ++ (feedFuel f st2).out) (feedFuel f st2).stop
          (neg || (feedFuel f st2).negBulk) := rfl

theorem run_step (st : ProtoState) :
    runBuffer st =
      match feedStep st with
      | StepRes.halt st2 ds s => FeedResult.mk st2 ds s false
      | StepRes.cont st2 ds neg =>
        FeedResult.mk (runBuffer st2).state (ds ++ (runBuffer st2).out) (runBuffer st2).stop
          (neg || (runBuffer st2).negBulk) := by
  rw [runBuffer_eq]
  rw [show 2 * st.buffer.length + 2 = Nat.succ (2 * st.buffer.length + 1) from rfl]
  rw [feedFuel_succ]
  cases hstep : feedStep st with
  | halt st2 ds s => simp only [hstep]
  | cont st2 ds neg =>
    simp only [hstep]
    have hm := step_measure hstep
    have h2 := measureF_lt_can st
    have h3 := measureF_lt_can st2
    rw [feedFuel_irrel (2 * st.buffer.length + 1) (2 * st2.buffer.length + 2) st2 (by omega) h3,
      ← runBuffer_eq st2]

theorem runBuffer_stop_ne_fuelOut_aux :
    ∀ (n : Nat) (st : ProtoState), measureF st < n → (runBuffer st).stop ≠ Stop.outOfFuel := by
  intro n
  induction n with
  | zero => intro st hf; exact absurd hf (by omega)
  | succ n ih =>
    intro st hf
    rw [run_step]
    cases hstep : feedStep st with
    | halt st2 ds s =>
      dsimp only
      exact feedStep_halt_not_fuelOut hstep
    | cont st2 ds neg =>
      dsimp only
      have hm := step_measure hstep
      exact ih st2 (by omega)

/-- Fuel adequacy: a real `dataReceived` call never stops because the
fuel of the embedding ran out, so the fueled loop is a faithful
rendering of the Python `while` loop. -/
theorem dataReceived_stop_ne_fuelOut (st : ProtoState) (data : List Char) :
    (dataReceived st data).stop ≠ Stop.outOfFuel := by
  rw [dataReceived_eq_run]
  apply runBuffer_stop_ne_fuelOut_aux
    (measureF { st with buffer := st.buffer ++ data } + 1)
  omega

theorem run_append_aux : ∀ (n : Nat) (st : ProtoState) (b : List Char), measureF st < n →
    cleanStop (runBuffer st).stop = true → (runBuffer st).negBulk = false →
    runBuffer { st with buffer := st.buffer ++ b } =
      mergeFR (runBuffer st)
        (runBuffer { (runBuffer st).state with buffer := (runBuffer st).state.buffer ++ b }) := by
  intro n
  induction n with
  | zero => intro st b hf _ _; exact absurd hf (by omega)
  | succ n ih =>
    intro st b hf hstop hneg
    cases hstep : feedStep st with
    | halt st2 ds s =>
      have hrun : runBuffer st = FeedResult.mk st2 ds s false := by rw [run_step, hstep]
      rw [hrun] at hstop hneg ⊢
      obtain ⟨hst, hds⟩ := feedStep_halt_clean hstep hstop
      subst hst; subst hds
      simp [mergeFR]
    | cont st2 ds neg =>
      have hrun : runBuffer st =
          FeedResult.mk (runBuffer st2).state (ds ++ (runBuffer st2).out) (runBuffer st2).stop
            (neg || (runBuffer st2).negBulk) := by rw [run_step, hstep]
      have hm := step_measure hstep
      rw [hrun] at hstop hneg ⊢
      dsimp only at hstop hneg ⊢
      cases neg with
      | true => simp at hneg
      | false =>
        have hneg2 : (runBuffer st2).negBulk = false := by simpa using hneg
        have hstep2 := step_append b hstep
        have hrun2 : runBuffer { st with buffer := st.buffer ++ b } =
            FeedResult.mk (runBuffer { st2 with buffer := st2.buffer ++ b }).state
              (ds ++ (runBuffer { st2 with buffer := st2.buffer ++ b }).out)
              (runBuffer { st2 with buffer := st2.buffer ++ b }).stop
              (false || (runBuffer { st2 with buffer := st2.buffer ++ b }).negBulk) := by
          rw [run_step, hstep2]
        rw [hrun2]
        have ih2 := ih st2 b (by omega) hstop hneg2
        rw [ih2]
        simp [mergeFR, List.append_assoc]

/-- Sequencing law for `dataReceived`: when a call stops only because it
needs more bytes (never via a mid-buffer `return` or a raise) and no
negative-length bulk slice occurred, feeding the concatenation in one
call is the same as feeding the two pieces in consecutive calls. -/
theorem dataReceived_append (st : ProtoState) (a b : List Char)
    (hstop : cleanStop (dataReceived st a).stop = true)
    (hneg : (dataReceived st a).negBulk = false) :
    dataReceived st (a ++ b) =
      mergeFR (dataReceived st a) (dataReceived (dataReceived st a).state b) := by
  rw [dataReceived_eq_run st a] at hstop hneg ⊢
  rw [dataReceived_eq_run st (a ++ b)]
  rw [dataReceived_eq_run]
  have h1 : { st with buffer := st.buffer ++ (a ++ b) } =
      { { st with buffer := st.buffer ++ a } with
          buffer := ({ st with buffer := st.buffer ++ a } : ProtoState).buffer ++ b } := by
    obtain ⟨u, bl, stk, q, dc, nd⟩ := st
    simp
  rw [h1]
  exact run_append_aux (measureF { st with buffer := st.buffer ++ a } + 1) _ b (by omega)
    hstop hneg

theorem hmbe_fifo : ∀ (stack : List Frame) (el : PyVal) (q : List Nat),
    popsFront q (handleMultiBulkElement el stack q).2.1 (handleMultiBulkElement el stack q).2.2 := by
  intro stack
  induction stack with
  | nil => intro el q; simp [handleMultiBulkElement, popsFront, outIds]
  | cons fr rest ih =>
    intro el q
    obtain ⟨rem, elems⟩ := fr
    unfold handleMultiBulkElement
    split
    · cases rest with
      | nil =>
        cases q with
        | nil => simp [popsFront, outIds]
        | cons d ds => simp [popsFront, outIds]
      | cons f fs => exact ih _ _
    · simp [popsFront, outIds]

theorem rr_fifo (reply : PyVal) (stack : List Frame) (q : List Nat) :
    popsFront q (responseReceived reply stack q).2.1 (responseReceived reply stack q).2.2 := by
  cases stack with
  | nil => cases q <;> simp [responseReceived, popsFront, outIds]
  | cons f fs => exact hmbe_fifo (f :: fs) reply q

theorem ir_fifo (d : String) (stack : List Frame) (q : List Nat) :
    popsFront q (integerReceived d stack q).2.1 (integerReceived d stack q).2.2 := by
  cases stack with
  | nil =>
    unfold integerReceived
    exact rr_fifo _ [] q
  | cons f fs =>
    unfold integerReceived
    exact hmbe_fifo (f :: fs) _ q

theorem sl_fifo (d : String) (stack : List Frame) (q : List Nat) :
    popsFront q (singleLineReceived d stack q).2.1 (singleLineReceived d stack q).2.2 := by
  unfold singleLineReceived
  exact rr_fifo _ stack q

theorem er_fifo {d : String} {q q2 : List Nat} {ds : List Delivery}
    (h : errorReceived d q = ErrResult.popped q2 ds) : popsFront q q2 ds := by
  unfold errorReceived at h
  cases q with
  | nil => exact ErrResult.noConfusion h
  | cons x xs =>
    injection h with h1 h2
    subst h1; subst h2
    simp [popsFront, outIds]

theorem step_fifo (st : ProtoState) :
    popsFront st.queue (stepQueueDs (feedStep st)).1 (stepQueueDs (feedStep st)).2 := by
  obtain ⟨u, bl, stk, q, dc, nd⟩ := st
  cases u with
  | nil => simp [feedStep, stepQueueDs, popsFront, outIds]
  | cons c r0 =>
    cases bl with
    | some l =>
      simp only [feedStep]
      unfold bulkStep
      split
      · simp [stepQueueDs, popsFront, outIds]
      · exact rr_fifo _ _ _
    | none =>
      simp only [feedStep]
      cases hsp : splitCRLF (c :: r0) with
      | none => simp [stepQueueDs, popsFront, outIds]
      | some p =>
        obtain ⟨line, rest⟩ := p
        dsimp only
        cases line with
        | nil => simp [lineStep, stepQueueDs, popsFront, outIds]
        | cons ch body =>
          unfold lineStep contRR haltRR
          repeat' split
          all_goals
            first
              | exact rr_fifo _ _ _
              | exact ir_fifo _ _ _
              | exact sl_fifo _ _ _
              | (rename_i he; exact er_fifo he)
              | simp [stepQueueDs, popsFront, outIds]

theorem run_fifo : ∀ (n : Nat) (st : ProtoState), measureF st < n →
    (runBuffer st).state.queue = st.queue.drop (runBuffer st).out.length ∧
    outIds (runBuffer st).out = st.queue.take (runBuffer st).out.length := by
  intro n
  induction n with
  | zero => intro st hf; exact absurd hf (by omega)
  | succ n ih =>
    intro st hf
    have hsf := step_fifo st
    rw [run_step]
    cases hstep : feedStep st with
    | halt st2 ds s =>
      rw [hstep] at hsf
      exact hsf
    | cont st2 ds neg =>
      rw [hstep] at hsf
      obtain ⟨hq, hids⟩ := hsf
      have hm := step_measure hstep
      have ih2 := ih st2 (by omega)
      obtain ⟨ihq, ihids⟩ := ih2
      dsimp only [stepQueueDs] at hq hids
      constructor
      · dsimp only
        rw [ihq, hq, List.length_append, List.drop_drop]
      · dsimp only
        unfold outIds at ihids hids ⊢
        rw [List.map_append, hids, ihids, hq, List.length_append, List.take_add]

theorem run_line_cont {line t : List Char} {stk : List Frame} {q : List Nat} {dc : Bool}
    {nd : Nat} {st2 : ProtoState} {ds : List Delivery} {neg : Bool}
    (hsp : splitCRLF (line ++ '\r' :: '\n' :: t) = Option.some (line, t))
    (hl : lineStep (ProtoState.mk (line ++ '\r' :: '\n' :: t) Option.none stk q dc nd) line t =
      StepRes.cont st2 ds neg) :
    runBuffer (ProtoState.mk (line ++ '\r' :: '\n' :: t) Option.none stk q dc nd) =
      FeedResult.mk (runBuffer st2).state (ds ++ (runBuffer st2).out) (runBuffer st2).stop
        (neg || (runBuffer st2).negBulk) := by
  rw [run_step]
  cases line with
  | nil =>
    simp only [List.nil_append] at hsp hl ⊢
    simp only [feedStep, hsp, hl]
  | cons c body =>
    simp only [List.cons_append] at hsp hl ⊢
    simp only [feedStep, hsp, hl]

theorem run_line_halt {line t : List Char} {stk : List Frame} {q : List Nat} {dc : Bool}
    {nd : Nat} {st2 : ProtoState} {ds : List Delivery} {s : Stop}
    (hsp : splitCRLF (line ++ '\r' :: '\n' :: t) = Option.some (line, t))
    (hl : lineStep (ProtoState.mk (line ++ '\r' :: '\n' :: t) Option.none stk q dc nd) line t =
      StepRes.halt st2 ds s) :
    runBuffer (ProtoState.mk (line ++ '\r' :: '\n' :: t) Option.none stk q dc nd) =
      FeedResult.mk st2 ds s false := by
  rw [run_step]
  cases line with
  | nil =>
    simp only [List.nil_append] at hsp hl ⊢
    simp only [feedStep, hsp, hl]
  | cons c body =>
    simp only [List.cons_append] at hsp hl ⊢
    simp only [feedStep, hsp, hl]

theorem packLoop_flatten : ∀ (args : List (List Char)) (buff : List Char)
    (output : List (List Char)),
    (packLoop buff output args).flatten =
      output.flatten ++ buff ++
        (args.map (fun a => SYM_DOLLAR ++ (toString a.length).data ++ SYM_CRLF ++ a ++ SYM_CRLF)).flatten := by
  intro args
  induction args with
  | nil => intro buff output; simp [packLoop]
  | cons a rest ih =>
    intro buff output
    unfold packLoop
    split
    · rw [ih]
      simp [List.append_assoc]
    · rw [ih]
      simp [List.append_assoc]

/-- Claim C3, counterexample: an error line decoded while an array
frame is open is not appended as the next element of the innermost
frame; `errorReceived` ignores the multi-bulk stack and rejects the
oldest pending request instead. Feeding `*2\r\n-ERR boom\r\n` with one
pending request errbacks that request and leaves the open frame still
empty and still awaiting two elements. -/
theorem c3_counterexample :
    (dataReceived (ProtoState.mk [] Option.none [] [7] false 8) ("*2\r\n-ERR boom\r\n".data)).out =
        [Delivery.errback 7 (Failure.resp (RErr.responseError "boom"))] ∧
    (dataReceived (ProtoState.mk [] Option.none [] [7] false 8)
        ("*2\r\n-ERR boom\r\n".data)).state.stack = [(2, [])] :=
  ⟨rfl, rfl⟩

/-- Claim C3, amended: every completed non-error element (simple
string, integer, bulk value, invalid-length marker, completed array)
is routed through the single completion path `responseReceived`: while
an array frame is open it is appended as the next element of the
innermost frame, cascading completion upward as frames fill, and with
no open frame it resolves the oldest pending request. Error-line
replies bypass this path entirely: `errorReceived` rejects the oldest
pending request whatever the frame stack holds. -/
theorem c3_amended_completion_path :
    (∀ (reply : PyVal) (rem : Int) (elems : List PyVal) (rest : List Frame) (q : List Nat),
      ¬ (rem - 1 = 0) →
      responseReceived reply ((rem, elems) :: rest) q =
        ((rem - 1, elems ++ [reply]) :: rest, q, [])) ∧
    (∀ (reply : PyVal) (elems : List PyVal) (rest : List Frame) (q : List Nat),
      responseReceived reply ((1, elems) :: rest) q =
        responseReceived (PyVal.list (elems ++ [reply])) rest q) ∧
    (∀ (reply : PyVal) (d : Nat) (ds : List Nat),
      responseReceived reply [] (d :: ds) = ([], ds, [Delivery.callback d reply])) ∧
    (∀ (d : String) (x : Nat) (xs : List Nat),
      errorReceived d (x :: xs) =
        ErrResult.popped xs [Delivery.errback x (Failure.resp (classifyError d))]) := by
  refine ⟨?_, ?_, fun reply d ds => rfl, fun d x xs => rfl⟩
  · intro reply rem elems rest q h
    unfold responseReceived handleMultiBulkElement
    rw [if_neg h]
  · intro reply elems rest q
    cases rest with
    | nil => cases q <;> rfl
    | cons f fs => rfl

/-- Witness for the amended C3: an element arriving into a frame still
awaiting two entries is appended and the remaining count drops to one,
with no delivery. -/
theorem c3_amended_witness :
    responseReceived (PyVal.int 5) [(2, [])] [0] = ([(1, [PyVal.int 5])], [0], []) :=
  c3_amended_completion_path.1 (PyVal.int 5) 2 [] [] [0] (by decide)

/-- Claim C5: `$-1\r\n` completes a null value, `*-1\r\n` completes a
null array (both delivered as the Python `None`), and the null array
is distinct from the empty array completed by `*0\r\n`. -/
theorem c5_null_values :
    (dataReceived (ProtoState.mk [] Option.none [] [0] false 1) ("$-1\r\n".data)).out =
        [Delivery.callback 0 PyVal.none] ∧
    (dataReceived (ProtoState.mk [] Option.none [] [0] false 1) ("*-1\r\n".data)).out =
        [Delivery.callback 0 PyVal.none] ∧
    (dataReceived (ProtoState.mk [] Option.none [] [0] false 1) ("*0\r\n".data)).out =
        [Delivery.callback 0 (PyVal.list [])] ∧
    PyVal.none ≠ PyVal.list [] :=
  ⟨rfl, rfl, rfl, fun h => PyVal.noConfusion h⟩

/-- Claim C6: `send("CONFIG GET", "maxmemory")` splits the space-
separated command name into two literal length-prefixed tokens followed
by the length-prefixed argument, writing exactly
`*3\r\n$6\r\nCONFIG\r\n$3\r\nGET\r\n$9\r\nmaxmemory\r\n`. -/
theorem c6_config_get_encoding :
    send initialState ("CONFIG GET".data) [PyArg.str ("maxmemory".data)] =
      ({ initialState with queue := [0], nextId := 1 },
        ["*3\r\n$6\r\nCONFIG\r\n$3\r\nGET\r\n$9\r\nmaxmemory\r\n".data],
        GetResult.deferred 0) :=
  rfl

/-- Claim C8: on transport-level disconnect, every queued request is
rejected, oldest first, with the connection-lost failure, the queue is
empty afterwards, and every subsequent `send` returns an immediately
failed result without appending to the queue (the state, queue
included, is left exactly as the disconnect left it). -/
theorem c8_connection_lost (st : ProtoState) :
    (connectionLost st).2 = st.queue.map (fun d => Delivery.errback d Failure.connLost) ∧
    (connectionLost st).1.queue = [] ∧
    (connectionLost st).1.disconnected = true ∧
    (∀ (cmd : List Char) (args : List PyArg),
      send (connectionLost st).1 cmd args =
        ((connectionLost st).1, pack cmd args, GetResult.failedNotConnected)) :=
  ⟨rfl, rfl, rfl, fun cmd args => rfl⟩

/-- Claim C9: an error-type reply line decoded while the pending
request queue is empty is raised out of the `dataReceived` call (the
classified error object escapes as an exception) rather than being
silently discarded; no delivery is produced. -/
theorem c9_error_empty_queue_raises (stk : List Frame) (dc : Bool) (nd : Nat)
    (s t : List Char) (hcr : '\r' ∉ s) :
    dataReceived (ProtoState.mk [] Option.none stk [] dc nd) ('-' :: s ++ '\r' :: '\n' :: t) =
      FeedResult.mk (ProtoState.mk t Option.none stk [] dc nd) []
        (Stop.raised (classifyError (String.mk s))) false := by
  have hsp : splitCRLF (('-' :: s) ++ '\r' :: '\n' :: t) = Option.some ('-' :: s, t) := by
    apply splitCRLF_no_cr
    simp only [List.mem_cons]
    rintro (h1 | h1)
    · exact absurd h1 (by decide)
    · exact hcr h1
  have hl : lineStep (ProtoState.mk (('-' :: s) ++ '\r' :: '\n' :: t) Option.none stk [] dc nd)
      ('-' :: s) t =
      StepRes.halt (ProtoState.mk t Option.none stk [] dc nd) []
        (Stop.raised (classifyError (String.mk s))) := rfl
  have h2 := run_line_halt hsp hl
  rw [dataReceived_eq_run]
  simp only [List.nil_append, List.cons_append] at h2 ⊢
  exact h2

/-- Witness for C9 at the concrete line `-ERR boom` with nothing
queued: the call raises the generic `ResponseError boom`. -/
theorem c9_witness :
    dataReceived (ProtoState.mk [] Option.none [] [] false 0)
        ('-' :: "ERR boom".data ++ '\r' :: '\n' :: []) =
      FeedResult.mk (ProtoState.mk [] Option.none [] [] false 0) []
        (Stop.raised (classifyError (String.mk "ERR boom".data))) false :=
  c9_error_empty_queue_raises [] false 0 ("ERR boom".data) [] (by decide)

/-- Claim C10: a completed non-error top-level reply arriving with both
the frame stack and the request queue empty is silently discarded by
`responseReceived`: no delivery, no error, stack and queue unchanged;
at stream level the line is consumed and decoding simply continues with
the rest of the buffer. Error replies in the same situation are raised
instead. -/
theorem c10_silent_drop :
    (∀ (reply : PyVal), responseReceived reply [] [] = ([], [], [])) ∧
    (∀ (d : String), errorReceived d [] = ErrResult.raised (classifyError d)) ∧
    (∀ (dc : Bool) (nd : Nat) (s t : List Char), '\r' ∉ s →
      dataReceived (ProtoState.mk [] Option.none [] [] dc nd) ('+' :: s ++ '\r' :: '\n' :: t) =
        dataReceived (ProtoState.mk [] Option.none [] [] dc nd) t) := by
  refine ⟨fun reply => rfl, fun d => rfl, ?_⟩
  intro dc nd s t hcr
  have hsp : splitCRLF (('+' :: s) ++ '\r' :: '\n' :: t) = Option.some ('+' :: s, t) := by
    apply splitCRLF_no_cr
    simp only [List.mem_cons]
    rintro (h1 | h1)
    · exact absurd h1 (by decide)
    · exact hcr h1
  have hl : lineStep (ProtoState.mk (('+' :: s) ++ '\r' :: '\n' :: t) Option.none [] [] dc nd)
      ('+' :: s) t =
      StepRes.cont (ProtoState.mk t Option.none [] [] dc nd) [] false := rfl
  have h2 := run_line_cont hsp hl
  rw [dataReceived_eq_run, dataReceived_eq_run]
  simp only [List.nil_append, List.cons_append] at h2 ⊢
  rw [h2]
  simp

/-- Witness for C10: an `+OK` reply arriving with nothing queued and no
open frame is dropped, and the stream continues with the next line. -/
theorem c10_silent_drop_witness :
    dataReceived (ProtoState.mk [] Option.none [] [] false 0)
        ('+' :: "OK".data ++ '\r' :: '\n' :: (":1\r\n".data)) =
      dataReceived (ProtoState.mk [] Option.none [] [] false 0) (":1\r\n".data) :=
  c10_silent_drop.2.2 false 0 ("OK".data) (":1\r\n".data) (by decide)

/-- Claim C1, counterexample: chunk-boundary independence fails as
stated even on well-formed RESP. A `*-1` null-array line runs the
mid-buffer `return`, so feeding `*-1\r\n+OK\r\n` in one call delivers
only the null array and leaves `+OK\r\n` unprocessed in the buffer,
while feeding the same bytes in two chunks delivers both replies. -/
theorem c1_counterexample :
    (feedChunks (ProtoState.mk [] Option.none [] [0, 1] false 2)
        ["*-1\r\n".data, "+OK\r\n".data]).out ≠
      (dataReceived (ProtoState.mk [] Option.none [] [0, 1] false 2)
        (["*-1\r\n".data, "+OK\r\n".data].flatten)).out := by
  intro h
  have h2 : (2 : Nat) = 1 := congrArg List.length h
  exact absurd h2 (by decide)

/-- Claim C1 (amended): chunk-boundary independence holds whenever
every proper prefix of the split is fed without taking a mid-buffer
`return` (after a `*-1` line or a malformed `$`/`*` length field),
without a raise from an error line on an empty queue, and without
consuming bulk data under a negative declared length: each such feed
stops only because the buffer drained or a partial value needs more
bytes, and then feeding the chunks one at a time produces the same
ordered deliveries, the same final state and the same stop condition
as feeding the whole stream in one call. -/
theorem c1_amended_chunk_independence : ∀ (chunks : List (List Char)) (st : ProtoState),
    chunks ≠ [] → cleanPrefixes st chunks = true →
    feedChunks st chunks = dataReceived st chunks.flatten := by
  intro chunks
  induction chunks with
  | nil => intro st hne _; exact absurd rfl hne
  | cons c cs ih =>
    intro st _ hclean
    cases cs with
    | nil =>
      show dataReceived st c = dataReceived st ([c].flatten)
      rw [show ([c] : List (List Char)).flatten = c ++ [] from rfl, List.append_nil]
    | cons c2 cs2 =>
      simp only [cleanPrefixes, Bool.and_eq_true] at hclean
      obtain ⟨⟨hstop, hneg⟩, hrest⟩ := hclean
      have hneg2 : (dataReceived st c).negBulk = false := by
        revert hneg; cases (dataReceived st c).negBulk <;> simp
      have happ := dataReceived_append st c ((c2 :: cs2).flatten) hstop hneg2
      rw [show ((c :: c2 :: cs2) : List (List Char)).flatten = c ++ (c2 :: cs2).flatten from rfl]
      rw [happ]
      show mergeFR (dataReceived st c) (feedChunks (dataReceived st c).state (c2 :: cs2)) = _
      rw [ih (dataReceived st c).state (by simp) hrest]

/-- Witness for the amended C1: an array reply with its bulk payload
split across two chunks decodes identically to the unsplit stream. -/
theorem c1_amended_witness :
    cleanPrefixes (ProtoState.mk [] Option.none [] [0] false 1)
        ["*2\r\n$1\r\n".data, "a\r\n$1\r\nb\r\n".data] = true ∧
    feedChunks (ProtoState.mk [] Option.none [] [0] false 1)
        ["*2\r\n$1\r\n".data, "a\r\n$1\r\nb\r\n".data] =
      dataReceived (ProtoState.mk [] Option.none [] [0] false 1)
        (["*2\r\n$1\r\n".data, "a\r\n$1\r\nb\r\n".data].flatten) :=
  ⟨by decide,
    c1_amended_chunk_independence ["*2\r\n$1\r\n".data, "a\r\n$1\r\nb\r\n".data]
      (ProtoState.mk [] Option.none [] [0] false 1) (by decide) (by decide)⟩

/-- Claim C2, counterexample: after the malformed `$x` length line is
turned into an `InvalidResponse` and delivered, the call returns
early, so the well-formed `:5` line already sitting in the buffer is
not processed by this `dataReceived` call (no second delivery); the
bytes only wait in the buffer. -/
theorem c2_counterexample :
    (dataReceived (ProtoState.mk [] Option.none [] [0, 1] false 2) ("$x\r\n:5\r\n".data)).out =
        [Delivery.callback 0 (PyVal.invalid (invalidMsg "x"))] ∧
    (dataReceived (ProtoState.mk [] Option.none [] [0, 1] false 2)
        ("$x\r\n:5\r\n".data)).stop = Stop.earlyReturn ∧
    (dataReceived (ProtoState.mk [] Option.none [] [0, 1] false 2)
        ("$x\r\n:5\r\n".data)).state.buffer = ":5\r\n".data :=
  ⟨rfl, rfl, rfl⟩

/-- Claim C2 (amended): a `:`, `$` or `*` line whose remaining text is
not a valid integer produces an `InvalidResponse` value delivered as
the reply content through the normal completion path
(`responseReceived`, so it feeds an open array frame or resolves the
oldest pending request). After a `:` line, processing of the remaining
buffered bytes continues within the same call; after a `$` or `*`
line the call returns at once, retaining the remaining bytes in the
buffer, and the next `dataReceived` call processes them exactly as a
continuation of the stream. -/
theorem c2_amended_invalid_length (stk : List Frame) (q : List Nat) (dc : Bool) (nd : Nat)
    (s t : List Char) (hcr : '\r' ∉ s) (hp : parsePyInt (String.mk s) = Option.none) :
    (dataReceived (ProtoState.mk [] Option.none stk q dc nd) (':' :: s ++ '\r' :: '\n' :: t) =
      withOut (responseReceived (PyVal.invalid (invalidMsg (String.mk s))) stk q).2.2
        (dataReceived
          (ProtoState.mk [] Option.none
            (responseReceived (PyVal.invalid (invalidMsg (String.mk s))) stk q).1
            (responseReceived (PyVal.invalid (invalidMsg (String.mk s))) stk q).2.1 dc nd) t)) ∧
    (integerReceived (String.mk s) stk q =
      responseReceived (PyVal.invalid (invalidMsg (String.mk s))) stk q) ∧
    (dataReceived (ProtoState.mk [] Option.none stk q dc nd) ('$' :: s ++ '\r' :: '\n' :: t) =
      FeedResult.mk
        (ProtoState.mk t Option.none
          (responseReceived (PyVal.invalid (invalidMsg (String.mk s))) stk q).1
          (responseReceived (PyVal.invalid (invalidMsg (String.mk s))) stk q).2.1 dc nd)
        (responseReceived (PyVal.invalid (invalidMsg (String.mk s))) stk q).2.2
        Stop.earlyReturn false) ∧
    (dataReceived (ProtoState.mk [] Option.none stk q dc nd) ('*' :: s ++ '\r' :: '\n' :: t) =
      FeedResult.mk
        (ProtoState.mk t Option.none
          (responseReceived (PyVal.invalid (invalidMsg (String.mk s))) stk q).1
          (responseReceived (PyVal.invalid (invalidMsg (String.mk s))) stk q).2.1 dc nd)
        (responseReceived (PyVal.invalid (invalidMsg (String.mk s))) stk q).2.2
        Stop.earlyReturn false) ∧
    (∀ (stk2 : List Frame) (q2 : List Nat) (u : List Char),
      dataReceived (ProtoState.mk t Option.none stk2 q2 dc nd) u =
        dataReceived (ProtoState.mk [] Option.none stk2 q2 dc nd) (t ++ u)) := by
  have hir : integerReceived (String.mk s) stk q =
      responseReceived (PyVal.invalid (invalidMsg (String.mk s))) stk q := by
    unfold integerReceived
    rw [hp]
    cases stk <;> rfl
  have hspc : ∀ (c : Char), ¬ (c = '\r') →
      splitCRLF ((c :: s) ++ '\r' :: '\n' :: t) = Option.some (c :: s, t) := by
    intro c hc
    apply splitCRLF_no_cr
    simp only [List.mem_cons]
    rintro (h1 | h1)
    · exact hc h1.symm
    · exact hcr h1
  refine ⟨?_, hir, ?_, ?_, ?_⟩
  · have hsp := hspc ':' (by decide)
    have hl : lineStep (ProtoState.mk ((':' :: s) ++ '\r' :: '\n' :: t) Option.none stk q dc nd)
        (':' :: s) t =
        StepRes.cont
          (ProtoState.mk t Option.none (integerReceived (String.mk s) stk q).1
            (integerReceived (String.mk s) stk q).2.1 dc nd)
          (integerReceived (String.mk s) stk q).2.2 false := rfl
    have h2 := run_line_cont hsp hl
    rw [dataReceived_eq_run]
    simp only [List.nil_append, List.cons_append] at h2 ⊢
    rw [h2, hir, withOut, dataReceived_eq_run]
    simp
  · have hsp := hspc '$' (by decide)
    have hl : lineStep (ProtoState.mk (('$' :: s) ++ '\r' :: '\n' :: t) Option.none stk q dc nd)
        ('$' :: s) t =
        StepRes.halt
          (ProtoState.mk t Option.none
            (responseReceived (PyVal.invalid (invalidMsg (String.mk s))) stk q).1
            (responseReceived (PyVal.invalid (invalidMsg (String.mk s))) stk q).2.1 dc nd)
          (responseReceived (PyVal.invalid (invalidMsg (String.mk s))) stk q).2.2
          Stop.earlyReturn := by
      simp [lineStep, hp, haltRR]
    have h2 := run_line_halt hsp hl
    rw [dataReceived_eq_run]
    simp only [List.nil_append, List.cons_append] at h2 ⊢
    exact h2
  · have hsp := hspc '*' (by decide)
    have hl : lineStep (ProtoState.mk (('*' :: s) ++ '\r' :: '\n' :: t) Option.none stk q dc nd)
        ('*' :: s) t =
        StepRes.halt
          (ProtoState.mk t Option.none
            (responseReceived (PyVal.invalid (invalidMsg (String.mk s))) stk q).1
            (responseReceived (PyVal.invalid (invalidMsg (String.mk s))) stk q).2.1 dc nd)
          (responseReceived (PyVal.invalid (invalidMsg (String.mk s))) stk q).2.2
          Stop.earlyReturn := by
      simp [lineStep, hp, haltRR]
    have h2 := run_line_halt hsp hl
    rw [dataReceived_eq_run]
    simp only [List.nil_append, List.cons_append] at h2 ⊢
    exact h2
  · intro stk2 q2 u
    rw [dataReceived_eq_run, dataReceived_eq_run]
    simp

/-- Witness for the amended C2 at the malformed length line `$x`
followed by a buffered `:5` line: the `InvalidResponse` resolves the
oldest request and the call returns early with `:5\r\n` retained. -/
theorem c2_amended_witness :
    parsePyInt (String.mk ['x']) = Option.none ∧
    dataReceived (ProtoState.mk [] Option.none [] [0, 1] false 2)
        ('$' :: ['x'] ++ '\r' :: '\n' :: (":5\r\n".data)) =
      FeedResult.mk
        (ProtoState.mk (":5\r\n".data) Option.none
          (responseReceived (PyVal.invalid (invalidMsg (String.mk ['x']))) [] [0, 1]).1
          (responseReceived (PyVal.invalid (invalidMsg (String.mk ['x']))) [] [0, 1]).2.1
          false 2)
        (responseReceived (PyVal.invalid (invalidMsg (String.mk ['x']))) [] [0, 1]).2.2
        Stop.earlyReturn false :=
  ⟨by decide,
    (c2_amended_invalid_length [] [0, 1] false 2 ['x'] (":5\r\n".data)
      (by decide) (by decide)).2.2.1⟩

/-- Claim C4: FIFO correlation. A `dataReceived` call delivers its
replies to exactly the oldest pending request slots, in queue order,
leaving the later slots queued in order, and `getResponse` (the tail
half of `send`) appends each new slot at the back of the queue, so
pipelined sends resolve strictly in send order, also when several
replies arrive in one chunk. -/
theorem c4_fifo_correlation :
    (∀ (st : ProtoState) (data : List Char),
      outIds (dataReceived st data).out = st.queue.take (dataReceived st data).out.length ∧
      (dataReceived st data).state.queue = st.queue.drop (dataReceived st data).out.length) ∧
    (∀ st : ProtoState, st.disconnected = false →
      getResponse st =
        ({ st with queue := st.queue ++ [st.nextId], nextId := st.nextId + 1 },
          GetResult.deferred st.nextId)) := by
  constructor
  · intro st data
    rw [dataReceived_eq_run]
    have h := run_fifo (measureF { st with buffer := st.buffer ++ data } + 1)
      { st with buffer := st.buffer ++ data } (by omega)
    dsimp only at h
    exact ⟨h.2, h.1⟩
  · intro st hd
    unfold getResponse
    rw [if_neg (by simp [hd])]

/-- Witness for C4: two pending requests, two replies in one chunk,
delivered oldest first; and `getResponse` on a fresh connection queues
slot 0. -/
theorem c4_fifo_witness :
    outIds (dataReceived (ProtoState.mk [] Option.none [] [0, 1] false 2)
        ("+OK\r\n:5\r\n".data)).out = [0, 1] ∧
    getResponse initialState =
      ({ initialState with queue := [0], nextId := 1 }, GetResult.deferred 0) := by
  constructor
  · have h := (c4_fifo_correlation.1 (ProtoState.mk [] Option.none [] [0, 1] false 2)
      ("+OK\r\n:5\r\n".data)).1
    rw [h]
    rfl
  · exact c4_fifo_correlation.2 initialState rfl

/-- Claim C7: flush-granularity invariance of the encoder. Whatever
chunking the 6000-byte threshold branch of `_pack` produces, the
concatenation of the returned chunks is the canonical single-buffer
encoding: the `*<argcount>` header line followed by a length header
line, the bytes and a terminator for each argument. -/
theorem c7_flush_invariance (cmd : List Char) (args : List PyArg) :
    (pack cmd args).flatten = canonicalWire ((packArgs cmd args).map encode) := by
  simp only [pack, canonicalWire]
  rw [packLoop_flatten]
  simp [List.length_map, List.append_assoc]

end TxRedis
